import Mathlib

/-!
# async_answer: keyed one-shot request/answer table

A shallow embedding of `async_answer.go`.  The registry, the slots (`waitData`) and the
handles (`reqCli`) live in an explicit state; slots and handles are heap objects, so they are
stored in two lists and referred to by their index (their address).  Every critical section of
the source (the code between `Lock` and `Unlock` of one shard mutex) is one atomic function on
that state, and the compare-and-swap on `isWait` is another.  The timer of a waiter runs
concurrently with it: its expiry and the run of its function are pieces of their own, and the
method `WaitAnswer` as a whole takes the schedule of its timer as an argument.
-/

namespace AsyncAnswer

/-! ## Data model -/

/-- A Go `string` is an immutable sequence of bytes. -/
abbrev Key := List (Fin 256)

/-- The error values the package can see: the two sentinels it names itself and any error value
handed in by a producer (identified by a tag). -/
inductive GoError where
  | DeadlineExceeded
  | ErrRepetitionCallWaitAnswer
  | custom (tag : Nat)
  deriving DecidableEq

/-- An `interface{}` payload: `none` is the nil interface. -/
abbrev Value := Option String

/-- An `error`: `none` is nil. -/
abbrev Err := Option GoError

/-- State of a `*time.Timer` created by `time.AfterFunc`, together with the goroutine of its
function: the duration has not yet elapsed; it has elapsed and the function was started but has
not yet taken the lock; the function has run; or the timer was stopped before the duration
elapsed. -/
inductive Timer where
  | pending
  | expired
  | fired
  | stopped
  deriving DecidableEq

/-- What the timer of a waiter does between its arming and the `Stop` of the cleanup when the
waiter is not blocked in between: nothing (`Stop` comes first); its function runs before the
cleanup; or it expires before `Stop` and its function runs only after the cleanup. -/
inductive Schedule where
  | quiet
  | early
  | late
  deriving DecidableEq

/-- The slot of one outstanding key (struct `waitData`); `w` is the counter of the
`sync.WaitGroup`. -/
structure waitData where
  v : Value
  e : Err
  t : Option Timer
  w : Int
  deriving DecidableEq

/-- A shard mapping `map[string]*waitData`: keys with the address of their slot. -/
abbrev ShardMap := List (Key × Nat)

/-- The registry (struct `asyncAnswer`).  The mutexes `mxs` are not stored: holding the mutex of
a shard is modelled by the atomicity of each critical section. -/
structure asyncAnswer where
  waits : List ShardMap
  andOpValMod : Nat
  deriving DecidableEq

/-- The handle (struct `reqCli`).  The pair `mx`, `waits` of the source refers to one shard of
the registry; it is stored as the index of that shard.  `w` is the address of the slot. -/
structure reqCli where
  isWait : Nat
  key : Key
  shard : Nat
  w : Nat
  deriving DecidableEq

/-- The whole program state: the registry and the two heaps. -/
structure State where
  aa : asyncAnswer
  slots : List waitData
  reqs : List reqCli
  deriving DecidableEq

/-- The run-time panics the code can raise. -/
inductive PanicKind where
  | shardCountNotPowerOfTwo
  | negativeWaitGroupCounter
  | indexOutOfRange
  | nilDereference
  deriving DecidableEq

/-- Outcome of running a piece of code: it returns, it panics (the state reached at the panic is
kept), or it blocks forever. -/
inductive Result (α : Type) where
  | ret (a : α)
  | panicked (k : PanicKind) (s : State)
  | blocked (s : State)
  deriving DecidableEq

/-! ## Maps -/

/-- Map lookup `waits[key]`. -/
def mapGet : ShardMap → Key → Option Nat
  | [], _ => none
  | (k, a) :: rest, key => if k = key then some a else mapGet rest key

/-- Builtin `delete(waits, key)`. -/
def mapDelete : ShardMap → Key → ShardMap
  | [], _ => []
  | (k, a) :: rest, key => if k = key then mapDelete rest key else (k, a) :: mapDelete rest key

/-- Map assignment `waits[key] = a`. -/
def mapSet (waits : ShardMap) (key : Key) (a : Nat) : ShardMap :=
  (key, a) :: mapDelete waits key

/-! ## Hashing and construction -/

/-- The constant `ShardCount`, `1 << 8`. -/
def ShardCount : Nat := 1 <<< 8

/-- FNV-1a offset basis for 32 bits. -/
def offset32 : Nat := 2166136261

/-- FNV-1a prime for 32 bits. -/
def prime32 : Nat := 16777619

/-- The hash `fnv.New32a()` after `Write(data)` starting from state `h`: for each byte, xor
then multiply, in `uint32`. -/
def fnv32aFrom (h : Nat) : List (Fin 256) → Nat
  | [] => h
  | c :: rest => fnv32aFrom (((h ^^^ c.val) * prime32) % 2 ^ 32) rest

/-- Value of `Sum32()` for the bytes of a key. -/
def fnv32a (key : Key) : Nat := fnv32aFrom offset32 key

/-- Function `NewAsyncAnswer(shardCount ...uint16)`: the registry with empty heaps.  When it
panics no registry exists; the state kept with the panic is the empty one. -/
def NewAsyncAnswer (shardCount : List (Fin 65536)) : Result State :=
  let build (count : Nat) : Result State :=
    .ret { aa := { waits := (List.range count).map (fun _ => []), andOpValMod := count - 1 },
           slots := [], reqs := [] }
  match shardCount with
  | [] => build ShardCount
  | c :: _ =>
    if 0 < c.val then
      if c.val &&& (c.val - 1) ≠ 0 then
        .panicked .shardCountNotPowerOfTwo
          { aa := { waits := [], andOpValMod := 0 }, slots := [], reqs := [] }
      else build c.val
    else build ShardCount

/-- Method `getShard`: the index of the shard of a key. -/
def getShard (a : asyncAnswer) (key : Key) : Nat :=
  fnv32a key &&& a.andOpValMod

/-! ## Registry operations -/

/-- Method `ApplyReq`: returns the new state, the handle (nil is `none`) and the flag. -/
def ApplyReq (s : State) (key : Key) : Result (State × Option Nat × Bool) :=
  let shard := getShard s.aa key
  match s.aa.waits[shard]? with
  | none => .panicked .indexOutOfRange s
  | some waits =>
    match mapGet waits key with
    | some _ => .ret (s, none, false)
    | none =>
      let w : waitData := { v := none, e := none, t := none, w := 0 + 1 }
      let wAddr := s.slots.length
      let req : reqCli := { isWait := 0, key := key, shard := shard, w := wAddr }
      .ret ({ aa := { s.aa with waits := s.aa.waits.set shard (mapSet waits key wAddr) },
              slots := s.slots ++ [w],
              reqs := s.reqs ++ [req] },
            some s.reqs.length, true)

/-- Method `sync.WaitGroup.Done` on the slot at address `a`, after which the code returns:
the counter goes down by one and the call panics when it becomes negative. -/
def wgDone (s : State) (a : Nat) (w : waitData) : Result State :=
  let s1 : State := { s with slots := s.slots.set a { w with w := w.w - 1 } }
  if w.w - 1 < 0 then .panicked .negativeWaitGroupCounter s1 else .ret s1

/-- Method `AnswerReq`. -/
def AnswerReq (s : State) (key : Key) (v : Value) (e : Err) : Result State :=
  let shard := getShard s.aa key
  match s.aa.waits[shard]? with
  | none => .panicked .indexOutOfRange s
  | some waits =>
    match mapGet waits key with
    | none => .ret s
    | some a =>
      match s.slots[a]? with
      | none => .panicked .nilDereference s
      | some w => wgDone s a { w with v := v, e := e }

/-! ## Handle operations -/

/-- Sequencing of outcomes: the second piece of code runs when the first one returned. -/
def Result.bind {α β : Type} (x : Result α) (f : α → Result β) : Result β :=
  match x with
  | .ret a => f a
  | .panicked k s => .panicked k s
  | .blocked s => .blocked s

/-- Builtin `delete(r.waits, r.key)` on the shard the handle refers to. -/
def shardDelete (a : asyncAnswer) (shard : Nat) (key : Key) : asyncAnswer :=
  match a.waits[shard]? with
  | none => a
  | some waits => { a with waits := a.waits.set shard (mapDelete waits key) }

/-- The call `atomic.CompareAndSwapUint32(&r.isWait, 0, 1)` on the handle at address `r`:
the new state and whether the swap took place. -/
def casIsWait (s : State) (r : Nat) (h : reqCli) : State × Bool :=
  if h.isWait = 0 then ({ s with reqs := s.reqs.set r { h with isWait := 1 } }, true)
  else (s, false)

/-- The critical section of `WaitAnswer` that arms the timer:
`r.w.t = time.AfterFunc(timeout, ...)`. -/
def armTimer (s : State) (h : reqCli) : Result State :=
  match s.slots[h.w]? with
  | none => .panicked .nilDereference s
  | some w => .ret { s with slots := s.slots.set h.w { w with t := some .pending } }

/-- The function given to `time.AfterFunc` (one critical section): nothing when the slot
already holds a value or an error, otherwise the deadline error is stored and the completion is
signalled. -/
def timerFunc (s : State) (h : reqCli) : Result State :=
  match s.slots[h.w]? with
  | none => .panicked .nilDereference s
  | some w =>
    if w.v ≠ none ∨ w.e ≠ none then .ret s
    else wgDone s h.w { w with v := none, e := some .DeadlineExceeded }

/-- The duration of the timer of the handle elapses: a pending timer becomes expired (its
function is started and will take the lock later); any other timer is left as it is. -/
def timerExpires (s : State) (h : reqCli) : Result State :=
  match s.slots[h.w]? with
  | none => .panicked .nilDereference s
  | some w =>
    if w.t = some .pending then
      .ret { s with slots := s.slots.set h.w { w with t := some .expired } }
    else .ret s

/-- The started function of an expired timer takes the lock and runs. -/
def timerRuns (s : State) (h : reqCli) : Result State :=
  match s.slots[h.w]? with
  | none => .panicked .nilDereference s
  | some w =>
    if w.t = some .expired then
      timerFunc { s with slots := s.slots.set h.w { w with t := some .fired } } h
    else .ret s

/-- The timer of the handle fires: a pending timer expires and its function runs at once; a
timer that is not pending does nothing. -/
def timerFires (s : State) (h : reqCli) : Result State :=
  match s.slots[h.w]? with
  | none => .panicked .nilDereference s
  | some w =>
    if w.t = some .pending then
      timerFunc { s with slots := s.slots.set h.w { w with t := some .fired } } h
    else .ret s

/-- Method `Timer.Stop`: a pending timer is stopped, any other is left as it is. -/
def Timer.Stop : Timer → Timer
  | .pending => .stopped
  | t => t

/-- The last critical section of `WaitAnswer`: the key is deleted from the shard mapping, the
timer (when there is one) is stopped, and the stored value and error are returned. -/
def waitCleanup (s : State) (h : reqCli) : Result (State × Value × Err) :=
  let s1 : State := { s with aa := shardDelete s.aa h.shard h.key }
  match s1.slots[h.w]? with
  | none => .panicked .nilDereference s1
  | some w =>
    .ret ({ s1 with slots := s1.slots.set h.w { w with t := w.t.map Timer.Stop } }, w.v, w.e)

/-- What the timer does, following the schedule, between the arming and the call of `Wait`. -/
def timerBeforeStop (sched : Schedule) (s : State) (h : reqCli) : Result State :=
  match sched with
  | .quiet => .ret s
  | .early => timerFires s h
  | .late => timerExpires s h

/-- The test of `Wait` after the timer acted on a blocked waiter. -/
def recheck (s : State) (h : reqCli) : Result State :=
  match s.slots[h.w]? with
  | none => .panicked .nilDereference s
  | some w => if w.w = 0 then .ret s else .blocked s

/-- The call `r.w.w.Wait()` when no other goroutine acts on the slot: it returns at once when
the counter is zero; otherwise the waiter is blocked, and the only thing that can still happen
is that its own timer fires (a pending one) or that the started function of its timer runs (an
expired one). -/
def awaitSignal (s : State) (h : reqCli) : Result State :=
  match s.slots[h.w]? with
  | none => .panicked .nilDereference s
  | some w =>
    if w.w = 0 then .ret s
    else if w.t = some .pending then (timerFires s h).bind (fun s1 => recheck s1 h)
    else if w.t = some .expired then (timerRuns s h).bind (fun s1 => recheck s1 h)
    else .blocked s

/-- The first part of `WaitAnswer` up to the call of `Wait`: the compare-and-swap and, for a
positive timeout, the arming of the timer.  `none` stands for the early return of the
repetition error. -/
def waitBegin (s : State) (r : Nat) (timeout : Int) : Result (Option State) :=
  match s.reqs[r]? with
  | none => .panicked .nilDereference s
  | some h =>
    match casIsWait s r h with
    | (_, false) => .ret none
    | (s1, true) =>
      if 0 < timeout then (armTimer s1 h).bind (fun s2 => .ret (some s2)) else .ret (some s1)

/-- Method `WaitAnswer` of the handle at address `r`, run while no other goroutine acts on the
state; `sched` is what the timer of the call does before the cleanup stops it.  With the
schedule `late` the returned state holds an expired timer whose function is still to run. -/
def WaitAnswer (s : State) (r : Nat) (timeout : Int) (sched : Schedule) :
    Result (State × Value × Err) :=
  match s.reqs[r]? with
  | none => .panicked .nilDereference s
  | some h =>
    (waitBegin s r timeout).bind (fun b =>
      match b with
      | none => .ret (s, none, some .ErrRepetitionCallWaitAnswer)
      | some s2 =>
        (timerBeforeStop sched s2 h).bind (fun s3 =>
          (awaitSignal s3 h).bind (fun s4 => waitCleanup s4 h)))

/-- Method `Delete` of the handle at address `r`. -/
def Delete (s : State) (r : Nat) : Result State :=
  match s.reqs[r]? with
  | none => .panicked .nilDereference s
  | some h =>
    match casIsWait s r h with
    | (_, false) => .ret s
    | (s1, true) => .ret { s1 with aa := shardDelete s1.aa h.shard h.key }

/-- The second part of `WaitAnswer` for a waiter that is woken by somebody else: `Wait` returns
only when the counter is zero, then the cleanup runs. -/
def waitEnd (s : State) (h : reqCli) : Result (State × Value × Err) :=
  match s.slots[h.w]? with
  | none => .panicked .nilDereference s
  | some w => if w.w = 0 then waitCleanup s h else .blocked s

/-! ## Runs -/

/-- The local variable `count` of `NewAsyncAnswer`: the first supplied count when it is
positive, `ShardCount` otherwise. -/
def effectiveCount (shardCount : List (Fin 65536)) : Nat :=
  match shardCount with
  | [] => ShardCount
  | c :: _ => if 0 < c.val then c.val else ShardCount

/-- What a goroutine can do to the state in one atomic piece: the four public operations run
while no other goroutine acts, and the pieces of `WaitAnswer` and of its timer for interleaved
runs. -/
inductive Op where
  | applyReq (key : Key)
  | answerReq (key : Key) (v : Value) (e : Err)
  | waitAnswer (r : Nat) (timeout : Int) (sched : Schedule)
  | delete (r : Nat)
  | waitBegin (r : Nat) (timeout : Int)
  | timerFires (r : Nat)
  | timerExpires (r : Nat)
  | timerRuns (r : Nat)
  | waitEnd (r : Nat)
  deriving DecidableEq

/-- Effect of one piece on the state. -/
def exec (s : State) : Op → Result State
  | .applyReq key => (ApplyReq s key).bind (fun x => .ret x.1)
  | .answerReq key v e => AnswerReq s key v e
  | .waitAnswer r timeout sched => (WaitAnswer s r timeout sched).bind (fun x => .ret x.1)
  | .delete r => Delete s r
  | .waitBegin r timeout => (waitBegin s r timeout).bind (fun b => .ret (b.getD s))
  | .timerFires r =>
    match s.reqs[r]? with
    | none => .panicked .nilDereference s
    | some h => timerFires s h
  | .timerExpires r =>
    match s.reqs[r]? with
    | none => .panicked .nilDereference s
    | some h => timerExpires s h
  | .timerRuns r =>
    match s.reqs[r]? with
    | none => .panicked .nilDereference s
    | some h => timerRuns s h
  | .waitEnd r =>
    match s.reqs[r]? with
    | none => .panicked .nilDereference s
    | some h => (waitEnd s h).bind (fun x => .ret x.1)

/-- Effect of a sequence of pieces. -/
def run (s : State) : List Op → Result State
  | [] => .ret s
  | op :: rest => (exec s op).bind (fun s1 => run s1 rest)

/-- Shape of the states the program can reach: one mapping per value of the mask, every
handle refers to the shard of its key and to an allocated slot, every mapping entry points to
an allocated slot. -/
def WF (s : State) : Prop :=
  s.aa.waits.length = s.aa.andOpValMod + 1 ∧
  (∀ (r : Nat) (h : reqCli), s.reqs[r]? = some h →
    h.shard = getShard s.aa h.key ∧ h.w < s.slots.length) ∧
  (∀ (i : Nat) (waits : ShardMap) (key : Key) (a : Nat), s.aa.waits[i]? = some waits →
    mapGet waits key = some a → a < s.slots.length)

/-- The step from `s` to `s1` changed nothing but the contents of slots: the registry and the
handles are the same and no slot was allocated. -/
def SlotOnly (s s1 : State) : Prop :=
  s1.aa = s.aa ∧ s1.reqs = s.reqs ∧ s1.slots.length = s.slots.length

/-- A key is outstanding when its shard mapping has an entry for it. -/
def Outstanding (s : State) (key : Key) : Prop :=
  ∃ waits a, s.aa.waits[getShard s.aa key]? = some waits ∧ mapGet waits key = some a

/-- The handle at address `r` was applied for `key` and nothing has happened to it or to its
slot since: its flag is clear, the shard mapping of the key points to its slot, and the slot is
as `ApplyReq` made it. -/
def Fresh (s : State) (key : Key) (r : Nat) : Prop :=
  ∃ (h : reqCli) (waits : ShardMap), s.reqs[r]? = some h ∧ h.isWait = 0 ∧ h.key = key ∧
    h.shard = getShard s.aa key ∧ s.aa.waits[h.shard]? = some waits ∧
    mapGet waits key = some h.w ∧
    s.slots[h.w]? = some { v := none, e := none, t := none, w := 1 }

/-- The flag of the handle at address `r` is set: `WaitAnswer` or `Delete` was called on it. -/
def Consumed (s : State) (r : Nat) : Prop :=
  ∃ h : reqCli, s.reqs[r]? = some h ∧ h.isWait ≠ 0

/-- The key is free again and `ApplyReq` gives it a new handle and a new slot, both different
from those of the old handle at address `r`; the new slot has no value and no error. -/
def Reusable (s : State) (key : Key) (r : Nat) : Prop :=
  ¬ Outstanding s key ∧
  ∃ (s1 : State) (r1 : Nat), ApplyReq s key = .ret (s1, some r1, true) ∧ Fresh s1 key r1 ∧
    r1 ≠ r ∧ ∃ (h h1 : reqCli), s1.reqs[r]? = some h ∧ s1.reqs[r1]? = some h1 ∧ h1.w ≠ h.w

/-! ## Concrete states -/

/-- The key `"k"`. -/
def exKey : Key := [107]

/-- The registry `NewAsyncAnswer(4)`. -/
def exEmpty : State :=
  { aa := { waits := [[], [], [], []], andOpValMod := 3 }, slots := [], reqs := [] }

/-- The state after `ApplyReq("k")` on `exEmpty`. -/
def exApplied : State :=
  { aa := { waits := [[], [], [(exKey, 0)], []], andOpValMod := 3 },
    slots := [{ v := none, e := none, t := none, w := 1 }],
    reqs := [{ isWait := 0, key := exKey, shard := 2, w := 0 }] }

/-- The state after `WaitAnswer(200)` on the handle of `exApplied` timed out. -/
def exTimedOut : State :=
  { aa := { waits := [[], [], [], []], andOpValMod := 3 },
    slots := [{ v := none, e := some .DeadlineExceeded, t := some .fired, w := 0 }],
    reqs := [{ isWait := 1, key := exKey, shard := 2, w := 0 }] }

/-- The state after `WaitAnswer(200)` has begun on the handle of `exApplied`: the flag is set
and the timer is armed. -/
def exWaiting : State :=
  { aa := { waits := [[], [], [(exKey, 0)], []], andOpValMod := 3 },
    slots := [{ v := none, e := none, t := some .pending, w := 1 }],
    reqs := [{ isWait := 1, key := exKey, shard := 2, w := 0 }] }

/-- The state `exWaiting` with the slot contents replaced. -/
def exSlot (w : waitData) : State :=
  { aa := { waits := [[], [], [(exKey, 0)], []], andOpValMod := 3 },
    slots := [w],
    reqs := [{ isWait := 1, key := exKey, shard := 2, w := 0 }] }

/-- The state after `AnswerReq("k", nil, nil)` on `exApplied`: both fields of the slot are
still nil and the completion was signalled. -/
def exNilAnswered : State :=
  { aa := { waits := [[], [], [(exKey, 0)], []], andOpValMod := 3 },
    slots := [{ v := none, e := none, t := none, w := 0 }],
    reqs := [{ isWait := 0, key := exKey, shard := 2, w := 0 }] }

/-- The state after the cleanup of the handle of `"k"`, with the given slot contents. -/
def exRemoved (w : waitData) : State :=
  { aa := { waits := [[], [], [], []], andOpValMod := 3 },
    slots := [w],
    reqs := [{ isWait := 1, key := exKey, shard := 2, w := 0 }] }

/-! # Theorems -/

/-! ## Arithmetic of the shard count -/

theorem and_pred_two_pow (n : Nat) : 2 ^ n &&& (2 ^ n - 1) = 0 := by
  rw [Nat.and_pow_two_sub_one_eq_mod, Nat.mod_self]

theorem two_pow_of_and_pred (c : Nat) (hc : 0 < c) (h : c &&& (c - 1) = 0) :
    ∃ n, c = 2 ^ n := by
  have hne : c ≠ 0 := Nat.pos_iff_ne_zero.mp hc
  obtain ⟨j, hle, hlt⟩ : ∃ j, 2 ^ j ≤ c ∧ c < 2 ^ (j + 1) :=
    ⟨c.log2, Nat.log2_self_le hne, (Nat.log2_lt hne).mp (Nat.lt_succ_self _)⟩
  obtain ⟨x, hx⟩ : ∃ x, c = 2 ^ j + x := ⟨c - 2 ^ j, by omega⟩
  have hxlt : x < 2 ^ j := by
    have : 2 ^ (j + 1) = 2 ^ j + 2 ^ j := by rw [Nat.pow_succ]; omega
    omega
  rcases Nat.eq_zero_or_pos x with hx0 | hxpos
  · exact ⟨j, by omega⟩
  · exfalso
    have h1 : c.testBit j = true := by
      rw [hx, Nat.testBit_two_pow_add_eq, Nat.testBit_lt_two_pow hxlt]; rfl
    have h2 : (c - 1).testBit j = true := by
      have : c - 1 = 2 ^ j + (x - 1) := by omega
      rw [this, Nat.testBit_two_pow_add_eq, Nat.testBit_lt_two_pow (by omega)]; rfl
    have h3 : (c &&& (c - 1)).testBit j = true := by
      rw [Nat.testBit_and, h1, h2]; rfl
    rw [h, Nat.zero_testBit] at h3
    exact Bool.noConfusion h3

theorem and_pred_eq_zero_iff (c : Nat) (hc : 0 < c) :
    c &&& (c - 1) = 0 ↔ ∃ n, c = 2 ^ n := by
  constructor
  · exact two_pow_of_and_pred c hc
  · rintro ⟨n, rfl⟩
    exact and_pred_two_pow n

theorem map_range_nil (n : Nat) :
    (List.range n).map (fun _ => ([] : ShardMap)) = List.replicate n [] := by
  rw [List.map_const', List.length_range]

/-! ## Maps -/

theorem mapGet_mapDelete_self (waits : ShardMap) (key : Key) :
    mapGet (mapDelete waits key) key = none := by
  induction waits with
  | nil => rfl
  | cons p rest ih =>
    obtain ⟨k, a⟩ := p
    by_cases hk : k = key
    · simpa [mapDelete, hk] using ih
    · simpa [mapDelete, hk, mapGet] using ih

theorem mapGet_mapDelete_ne (waits : ShardMap) (key key2 : Key) (hne : key2 ≠ key) :
    mapGet (mapDelete waits key) key2 = mapGet waits key2 := by
  induction waits with
  | nil => rfl
  | cons p rest ih =>
    obtain ⟨k, a⟩ := p
    by_cases hk : k = key
    · subst hk
      have : ¬ k = key2 := fun h => hne h.symm
      simpa [mapDelete, mapGet, this] using ih
    · by_cases hk2 : k = key2
      · subst hk2
        simp [mapDelete, mapGet, hk]
      · simpa [mapDelete, mapGet, hk, hk2] using ih

theorem mapDelete_of_absent (waits : ShardMap) (key : Key) (h : mapGet waits key = none) :
    mapDelete waits key = waits := by
  induction waits with
  | nil => rfl
  | cons p rest ih =>
    obtain ⟨k, a⟩ := p
    by_cases hk : k = key
    · simp [mapGet, hk] at h
    · simp only [mapGet, hk, if_false] at h
      simp [mapDelete, hk, ih h]

theorem mapGet_mapDelete_some (waits : ShardMap) (key key2 : Key) (a : Nat)
    (h : mapGet (mapDelete waits key) key2 = some a) : mapGet waits key2 = some a := by
  by_cases hk : key2 = key
  · subst hk; rw [mapGet_mapDelete_self] at h; exact Option.noConfusion h
  · rwa [mapGet_mapDelete_ne _ _ _ hk] at h

/-! ## Outcomes -/

theorem Result.bind_eq_ret {α β : Type} (x : Result α) (f : α → Result β) (b : β) :
    x.bind f = .ret b ↔ ∃ a, x = .ret a ∧ f a = .ret b := by
  cases x <;> simp [Result.bind]

/-! ## Preservation of the shape of the state -/

theorem WF_setSlot (s : State) (a : Nat) (w : waitData) (hs : WF s) :
    WF { s with slots := s.slots.set a w } := by
  obtain ⟨h1, h2, h3⟩ := hs
  refine ⟨h1, ?_, ?_⟩
  · intro r h hr
    have := h2 r h hr
    simpa using this
  · intro i waits key b hi hb
    have := h3 i waits key b hi hb
    simpa using this

theorem WF_setReq (s : State) (r : Nat) (h : reqCli) (hr : s.reqs[r]? = some h) (hs : WF s) :
    WF { s with reqs := s.reqs.set r { h with isWait := 1 } } := by
  obtain ⟨h1, h2, h3⟩ := hs
  refine ⟨h1, ?_, h3⟩
  intro r2 h2v hr2
  simp only [List.getElem?_set] at hr2
  split at hr2
  · split at hr2
    · cases hr2
      exact h2 r h hr
    · exact Option.noConfusion hr2
  · exact h2 r2 h2v hr2

theorem getShard_shardDelete (a : asyncAnswer) (shard : Nat) (key key2 : Key) :
    getShard (shardDelete a shard key) key2 = getShard a key2 := by
  unfold shardDelete getShard
  split <;> rfl

theorem WF_shardDelete (s : State) (shard : Nat) (key : Key) (hs : WF s) :
    WF { s with aa := shardDelete s.aa shard key } := by
  obtain ⟨h1, h2, h3⟩ := hs
  refine ⟨?_, ?_, ?_⟩
  · show (shardDelete s.aa shard key).waits.length = (shardDelete s.aa shard key).andOpValMod + 1
    unfold shardDelete
    split <;> simp [h1]
  · intro r h hr
    have := h2 r h hr
    exact ⟨by rw [getShard_shardDelete]; exact this.1, this.2⟩
  · intro i waits key2 b hi hb
    change (shardDelete s.aa shard key).waits[i]? = some waits at hi
    unfold shardDelete at hi
    split at hi
    · exact h3 i waits key2 b hi hb
    · rename_i ws hws
      simp only [List.getElem?_set] at hi
      split at hi
      · split at hi
        · cases hi
          rename_i heq _
          subst heq
          exact h3 shard ws key2 b hws (mapGet_mapDelete_some _ _ _ _ hb)
        · exact Option.noConfusion hi
      · exact h3 i waits key2 b hi hb

/-! ## Steps that only change slots -/

theorem SlotOnly.refl (s : State) : SlotOnly s s := ⟨rfl, rfl, rfl⟩

theorem SlotOnly.trans {s s1 s2 : State} (h1 : SlotOnly s s1) (h2 : SlotOnly s1 s2) :
    SlotOnly s s2 :=
  ⟨h2.1.trans h1.1, h2.2.1.trans h1.2.1, h2.2.2.trans h1.2.2⟩

theorem SlotOnly_setSlot (s : State) (a : Nat) (w : waitData) :
    SlotOnly s { s with slots := s.slots.set a w } := ⟨rfl, rfl, by simp⟩

theorem WF_of_SlotOnly (s s1 : State) (hs : WF s) (h : SlotOnly s s1) : WF s1 := by
  obtain ⟨h1, h2, h3⟩ := hs
  obtain ⟨ha, hr, hl⟩ := h
  refine ⟨by rw [ha]; exact h1, ?_, ?_⟩
  · intro r hd hrd
    rw [hr] at hrd
    rw [ha, hl]
    exact h2 r hd hrd
  · intro i waits key a hi hget
    rw [ha] at hi
    rw [hl]
    exact h3 i waits key a hi hget

theorem SlotOnly_wgDone (s s1 : State) (a : Nat) (w : waitData) (h : wgDone s a w = .ret s1) :
    SlotOnly s s1 := by
  unfold wgDone at h
  split at h
  · exact Result.noConfusion h
  · cases h; exact SlotOnly_setSlot s a _

theorem SlotOnly_AnswerReq (s s1 : State) (key : Key) (v : Value) (e : Err)
    (h : AnswerReq s key v e = .ret s1) : SlotOnly s s1 := by
  unfold AnswerReq at h
  dsimp only at h
  split at h
  · exact Result.noConfusion h
  · split at h
    · cases h; exact SlotOnly.refl s
    · split at h
      · exact Result.noConfusion h
      · exact SlotOnly_wgDone _ _ _ _ h

theorem SlotOnly_armTimer (s s1 : State) (h : reqCli) (hr : armTimer s h = .ret s1) :
    SlotOnly s s1 := by
  unfold armTimer at hr
  split at hr
  · exact Result.noConfusion hr
  · cases hr; exact SlotOnly_setSlot s _ _

theorem SlotOnly_timerFunc (s s1 : State) (h : reqCli) (hr : timerFunc s h = .ret s1) :
    SlotOnly s s1 := by
  unfold timerFunc at hr
  split at hr
  · exact Result.noConfusion hr
  · split at hr
    · cases hr; exact SlotOnly.refl s
    · exact SlotOnly_wgDone _ _ _ _ hr

theorem SlotOnly_timerExpires (s s1 : State) (h : reqCli) (hr : timerExpires s h = .ret s1) :
    SlotOnly s s1 := by
  unfold timerExpires at hr
  split at hr
  · exact Result.noConfusion hr
  · split at hr
    · cases hr; exact SlotOnly_setSlot s _ _
    · cases hr; exact SlotOnly.refl s

theorem SlotOnly_timerRuns (s s1 : State) (h : reqCli) (hr : timerRuns s h = .ret s1) :
    SlotOnly s s1 := by
  unfold timerRuns at hr
  split at hr
  · exact Result.noConfusion hr
  · split at hr
    · exact (SlotOnly_setSlot s _ _).trans (SlotOnly_timerFunc _ _ _ hr)
    · cases hr; exact SlotOnly.refl s

theorem SlotOnly_timerFires (s s1 : State) (h : reqCli) (hr : timerFires s h = .ret s1) :
    SlotOnly s s1 := by
  unfold timerFires at hr
  split at hr
  · exact Result.noConfusion hr
  · split at hr
    · exact (SlotOnly_setSlot s _ _).trans (SlotOnly_timerFunc _ _ _ hr)
    · cases hr; exact SlotOnly.refl s

theorem recheck_ret (s s1 : State) (h : reqCli) (hr : recheck s h = .ret s1) : s1 = s := by
  unfold recheck at hr
  split at hr
  · exact Result.noConfusion hr
  · split at hr
    · cases hr; rfl
    · exact Result.noConfusion hr

theorem SlotOnly_timerBeforeStop (sched : Schedule) (s s1 : State) (h : reqCli)
    (hr : timerBeforeStop sched s h = .ret s1) : SlotOnly s s1 := by
  cases sched with
  | quiet => cases hr; exact SlotOnly.refl s
  | early => exact SlotOnly_timerFires _ _ _ hr
  | late => exact SlotOnly_timerExpires _ _ _ hr

theorem SlotOnly_awaitSignal (s s1 : State) (h : reqCli) (hr : awaitSignal s h = .ret s1) :
    SlotOnly s s1 := by
  unfold awaitSignal at hr
  split at hr
  · exact Result.noConfusion hr
  · split at hr
    · cases hr; exact SlotOnly.refl s
    · split at hr
      · rw [Result.bind_eq_ret] at hr
        obtain ⟨s2, h2, h3⟩ := hr
        rw [recheck_ret _ _ _ h3]
        exact SlotOnly_timerFires _ _ _ h2
      · split at hr
        · rw [Result.bind_eq_ret] at hr
          obtain ⟨s2, h2, h3⟩ := hr
          rw [recheck_ret _ _ _ h3]
          exact SlotOnly_timerRuns _ _ _ h2
        · exact Result.noConfusion hr

theorem waitBegin_ret (s s1 : State) (r : Nat) (h : reqCli) (timeout : Int)
    (hh : s.reqs[r]? = some h) (hr : waitBegin s r timeout = .ret (some s1)) :
    h.isWait = 0 ∧ s1.aa = s.aa ∧ s1.reqs = s.reqs.set r { h with isWait := 1 } ∧
    s1.slots.length = s.slots.length := by
  unfold waitBegin at hr
  simp only [hh] at hr
  unfold casIsWait at hr
  by_cases h0 : h.isWait = 0
  · simp only [h0, if_true] at hr
    split at hr
    · rw [Result.bind_eq_ret] at hr
      obtain ⟨s2, h2, h3⟩ := hr
      cases h3
      obtain ⟨ha, hq, hl⟩ := SlotOnly_armTimer _ _ _ h2
      exact ⟨h0, ha, hq, hl⟩
    · cases hr; exact ⟨h0, rfl, rfl, rfl⟩
  · simp [h0] at hr

theorem waitBegin_none (s : State) (r : Nat) (h : reqCli) (timeout : Int)
    (hh : s.reqs[r]? = some h) (hr : waitBegin s r timeout = .ret none) : h.isWait ≠ 0 := by
  unfold waitBegin at hr
  simp only [hh, casIsWait] at hr
  intro h0
  simp only [h0, if_true] at hr
  split at hr
  · rw [Result.bind_eq_ret] at hr
    obtain ⟨s2, _, h3⟩ := hr
    cases h3
  · cases hr

theorem waitCleanup_ret (s s1 : State) (h : reqCli) (v : Value) (e : Err)
    (hr : waitCleanup s h = .ret (s1, v, e)) :
    s1.aa = shardDelete s.aa h.shard h.key ∧ s1.reqs = s.reqs ∧
    s1.slots.length = s.slots.length ∧ h.w < s.slots.length := by
  unfold waitCleanup at hr
  simp only at hr
  split at hr
  · exact Result.noConfusion hr
  · rename_i w hw
    cases hr
    refine ⟨rfl, rfl, by simp, ?_⟩
    by_contra hge
    rw [List.getElem?_eq_none (by omega)] at hw
    exact Option.noConfusion hw

theorem WaitAnswer_ret (s s1 : State) (r : Nat) (h : reqCli) (timeout : Int)
    (sched : Schedule) (v : Value) (e : Err) (hh : s.reqs[r]? = some h) (h0 : h.isWait = 0)
    (hr : WaitAnswer s r timeout sched = .ret (s1, v, e)) :
    s1.aa = shardDelete s.aa h.shard h.key ∧ s1.reqs = s.reqs.set r { h with isWait := 1 } ∧
    s1.slots.length = s.slots.length ∧ h.w < s.slots.length := by
  unfold WaitAnswer at hr
  simp only [hh] at hr
  rw [Result.bind_eq_ret] at hr
  obtain ⟨b, hb, hrest⟩ := hr
  cases b with
  | none => exact absurd h0 (waitBegin_none s r h timeout hh hb)
  | some s2 =>
    simp only at hrest
    rw [Result.bind_eq_ret] at hrest
    obtain ⟨s3, h3, hrest⟩ := hrest
    rw [Result.bind_eq_ret] at hrest
    obtain ⟨s4, h4, h5⟩ := hrest
    obtain ⟨_, a2, q2, l2⟩ := waitBegin_ret s s2 r h timeout hh hb
    obtain ⟨a3, q3, l3⟩ := SlotOnly_timerBeforeStop sched s2 s3 h h3
    obtain ⟨a4, q4, l4⟩ := SlotOnly_awaitSignal s3 s4 h h4
    obtain ⟨a5, q5, l5, hlt⟩ := waitCleanup_ret s4 s1 h v e h5
    refine ⟨by rw [a5, a4, a3, a2], by rw [q5, q4, q3, q2], by omega, by omega⟩

theorem WF_AnswerReq (s s1 : State) (key : Key) (v : Value) (e : Err) (hs : WF s)
    (h : AnswerReq s key v e = .ret s1) : WF s1 :=
  WF_of_SlotOnly s s1 hs (SlotOnly_AnswerReq s s1 key v e h)

theorem WF_ApplyReq (s s1 : State) (key : Key) (r : Option Nat) (ok : Bool) (hs : WF s)
    (h : ApplyReq s key = .ret (s1, r, ok)) : WF s1 := by
  unfold ApplyReq at h
  dsimp only at h
  split at h
  · exact Result.noConfusion h
  · rename_i waits hw
    split at h
    · cases h; exact hs
    · rename_i hget
      cases h
      obtain ⟨h1, h2, h3⟩ := hs
      refine ⟨by simpa using h1, ?_, ?_⟩
      · intro r2 h2v hr2
        simp only [List.getElem?_append] at hr2
        split at hr2
        · have := h2 r2 h2v hr2
          exact ⟨this.1, by simp; omega⟩
        · generalize r2 - s.reqs.length = d at hr2
          cases d with
          | zero =>
            simp at hr2
            subst hr2
            exact ⟨rfl, by simp⟩
          | succ n => simp at hr2
      · intro i ws key2 b hi hb
        simp only [List.getElem?_set] at hi
        simp only [List.length_append, List.length_singleton]
        split at hi
        · split at hi
          · cases hi
            simp only [mapSet, mapGet] at hb
            split at hb
            · cases hb; omega
            · have := h3 _ _ _ _ hw (mapGet_mapDelete_some _ _ _ _ hb)
              omega
          · exact Option.noConfusion hi
        · have := h3 i ws key2 b hi hb
          omega

theorem WF_waitCleanup (s s1 : State) (h : reqCli) (v : Value) (e : Err) (hs : WF s)
    (hr : waitCleanup s h = .ret (s1, v, e)) : WF s1 := by
  unfold waitCleanup at hr
  simp only at hr
  split at hr
  · exact Result.noConfusion hr
  · cases hr
    exact WF_setSlot _ _ _ (WF_shardDelete s _ _ hs)

theorem WF_waitBegin (s s1 : State) (r : Nat) (timeout : Int) (hs : WF s)
    (hr : waitBegin s r timeout = .ret (some s1)) : WF s1 := by
  cases hh : s.reqs[r]? with
  | none =>
    unfold waitBegin at hr
    simp only [hh] at hr
    exact Result.noConfusion hr
  | some h =>
    obtain ⟨_, ha, hq, hl⟩ := waitBegin_ret s s1 r h timeout hh hr
    have hs1 := WF_setReq s r h hh hs
    exact WF_of_SlotOnly _ s1 hs1 ⟨ha, hq, hl⟩

theorem WF_WaitAnswer (s s1 : State) (r : Nat) (timeout : Int) (sched : Schedule) (v : Value)
    (e : Err) (hs : WF s) (hr : WaitAnswer s r timeout sched = .ret (s1, v, e)) : WF s1 := by
  unfold WaitAnswer at hr
  split at hr
  · exact Result.noConfusion hr
  · rw [Result.bind_eq_ret] at hr
    obtain ⟨b, hb, hrest⟩ := hr
    cases b with
    | none => cases hrest; exact hs
    | some s2 =>
      simp only at hrest
      rw [Result.bind_eq_ret] at hrest
      obtain ⟨s3, h3, hrest⟩ := hrest
      rw [Result.bind_eq_ret] at hrest
      obtain ⟨s4, h4, h5⟩ := hrest
      have w2 := WF_waitBegin _ _ _ _ hs hb
      have w3 := WF_of_SlotOnly _ _ w2 (SlotOnly_timerBeforeStop _ _ _ _ h3)
      have w4 := WF_of_SlotOnly _ _ w3 (SlotOnly_awaitSignal _ _ _ h4)
      exact WF_waitCleanup _ _ _ _ _ w4 h5

theorem WF_Delete (s s1 : State) (r : Nat) (hs : WF s) (hr : Delete s r = .ret s1) :
    WF s1 := by
  unfold Delete at hr
  split at hr
  · exact Result.noConfusion hr
  · rename_i h hh
    unfold casIsWait at hr
    by_cases h0 : h.isWait = 0
    · simp only [h0, if_true] at hr
      cases hr
      exact WF_shardDelete _ _ _ (WF_setReq s r h hh hs)
    · simp only [h0, if_false] at hr
      cases hr; exact hs

theorem WF_waitEnd (s s1 : State) (h : reqCli) (v : Value) (e : Err) (hs : WF s)
    (hr : waitEnd s h = .ret (s1, v, e)) : WF s1 := by
  unfold waitEnd at hr
  split at hr
  · exact Result.noConfusion hr
  · split at hr
    · exact WF_waitCleanup _ _ _ _ _ hs hr
    · exact Result.noConfusion hr

theorem WF_exec (s s1 : State) (op : Op) (hs : WF s) (hr : exec s op = .ret s1) : WF s1 := by
  cases op with
  | applyReq key =>
    simp only [exec, Result.bind_eq_ret] at hr
    obtain ⟨⟨s2, r, ok⟩, h1, h2⟩ := hr
    cases h2
    exact WF_ApplyReq _ _ _ _ _ hs h1
  | answerReq key v e => exact WF_AnswerReq _ _ _ _ _ hs hr
  | waitAnswer r timeout sched =>
    simp only [exec, Result.bind_eq_ret] at hr
    obtain ⟨⟨s2, v, e⟩, h1, h2⟩ := hr
    cases h2
    exact WF_WaitAnswer _ _ _ _ _ _ _ hs h1
  | delete r => exact WF_Delete _ _ _ hs hr
  | waitBegin r timeout =>
    simp only [exec, Result.bind_eq_ret] at hr
    obtain ⟨b, h1, h2⟩ := hr
    cases b with
    | none => cases h2; exact hs
    | some s2 => cases h2; exact WF_waitBegin _ _ _ _ hs h1
  | timerFires r =>
    simp only [exec] at hr
    split at hr
    · exact Result.noConfusion hr
    · exact WF_of_SlotOnly _ _ hs (SlotOnly_timerFires _ _ _ hr)
  | timerExpires r =>
    simp only [exec] at hr
    split at hr
    · exact Result.noConfusion hr
    · exact WF_of_SlotOnly _ _ hs (SlotOnly_timerExpires _ _ _ hr)
  | timerRuns r =>
    simp only [exec] at hr
    split at hr
    · exact Result.noConfusion hr
    · exact WF_of_SlotOnly _ _ hs (SlotOnly_timerRuns _ _ _ hr)
  | waitEnd r =>
    simp only [exec] at hr
    split at hr
    · exact Result.noConfusion hr
    · rw [Result.bind_eq_ret] at hr
      obtain ⟨⟨s2, v, e⟩, h1, h2⟩ := hr
      cases h2
      exact WF_waitEnd _ _ _ _ _ hs h1

theorem WF_run (ops : List Op) (s s1 : State) (hs : WF s) (hr : run s ops = .ret s1) :
    WF s1 := by
  induction ops generalizing s with
  | nil => cases hr; exact hs
  | cons op rest ih =>
    simp only [run, Result.bind_eq_ret] at hr
    obtain ⟨s2, h1, h2⟩ := hr
    exact ih s2 (WF_exec _ _ _ hs h1) h2

/-! ## The mask never changes -/

theorem mask_shardDelete (a : asyncAnswer) (shard : Nat) (key : Key) :
    (shardDelete a shard key).andOpValMod = a.andOpValMod := by
  unfold shardDelete
  split <;> rfl

theorem mask_ApplyReq (s s1 : State) (key : Key) (r : Option Nat) (ok : Bool)
    (h : ApplyReq s key = .ret (s1, r, ok)) : s1.aa.andOpValMod = s.aa.andOpValMod := by
  unfold ApplyReq at h
  dsimp only at h
  split at h
  · exact Result.noConfusion h
  · split at h
    · cases h; rfl
    · cases h; rfl

theorem mask_waitCleanup (s s1 : State) (h : reqCli) (v : Value) (e : Err)
    (hr : waitCleanup s h = .ret (s1, v, e)) : s1.aa.andOpValMod = s.aa.andOpValMod := by
  unfold waitCleanup at hr
  simp only at hr
  split at hr
  · exact Result.noConfusion hr
  · cases hr
    exact mask_shardDelete _ _ _

theorem mask_Delete (s s1 : State) (r : Nat) (hr : Delete s r = .ret s1) :
    s1.aa.andOpValMod = s.aa.andOpValMod := by
  unfold Delete at hr
  split at hr
  · exact Result.noConfusion hr
  · rename_i h hh
    unfold casIsWait at hr
    by_cases h0 : h.isWait = 0
    · simp only [h0, if_true] at hr
      cases hr
      exact mask_shardDelete _ _ _
    · simp only [h0, if_false] at hr
      cases hr; rfl

theorem mask_AnswerReq (s s1 : State) (key : Key) (v : Value) (e : Err)
    (h : AnswerReq s key v e = .ret s1) : s1.aa.andOpValMod = s.aa.andOpValMod := by
  rw [(SlotOnly_AnswerReq s s1 key v e h).1]

theorem mask_waitBegin (s s1 : State) (r : Nat) (timeout : Int)
    (hr : waitBegin s r timeout = .ret (some s1)) : s1.aa.andOpValMod = s.aa.andOpValMod := by
  cases hh : s.reqs[r]? with
  | none =>
    unfold waitBegin at hr
    simp only [hh] at hr
    exact Result.noConfusion hr
  | some h => rw [(waitBegin_ret s s1 r h timeout hh hr).2.1]

theorem mask_WaitAnswer (s s1 : State) (r : Nat) (timeout : Int) (sched : Schedule)
    (v : Value) (e : Err) (hr : WaitAnswer s r timeout sched = .ret (s1, v, e)) :
    s1.aa.andOpValMod = s.aa.andOpValMod := by
  unfold WaitAnswer at hr
  split at hr
  · exact Result.noConfusion hr
  · rw [Result.bind_eq_ret] at hr
    obtain ⟨b, hb, hrest⟩ := hr
    cases b with
    | none => cases hrest; rfl
    | some s2 =>
      simp only at hrest
      rw [Result.bind_eq_ret] at hrest
      obtain ⟨s3, h3, hrest⟩ := hrest
      rw [Result.bind_eq_ret] at hrest
      obtain ⟨s4, h4, h5⟩ := hrest
      rw [mask_waitCleanup _ _ _ _ _ h5, (SlotOnly_awaitSignal _ _ _ h4).1,
        (SlotOnly_timerBeforeStop _ _ _ _ h3).1, mask_waitBegin _ _ _ _ hb]

theorem mask_exec (s s1 : State) (op : Op) (hr : exec s op = .ret s1) :
    s1.aa.andOpValMod = s.aa.andOpValMod := by
  cases op with
  | applyReq key =>
    simp only [exec, Result.bind_eq_ret] at hr
    obtain ⟨⟨s2, r, ok⟩, h1, h2⟩ := hr
    cases h2
    exact mask_ApplyReq _ _ _ _ _ h1
  | answerReq key v e => exact mask_AnswerReq _ _ _ _ _ hr
  | waitAnswer r timeout sched =>
    simp only [exec, Result.bind_eq_ret] at hr
    obtain ⟨⟨s2, v, e⟩, h1, h2⟩ := hr
    cases h2
    exact mask_WaitAnswer _ _ _ _ _ _ _ h1
  | delete r => exact mask_Delete _ _ _ hr
  | waitBegin r timeout =>
    simp only [exec, Result.bind_eq_ret] at hr
    obtain ⟨b, h1, h2⟩ := hr
    cases b with
    | none => cases h2; rfl
    | some s2 => cases h2; exact mask_waitBegin _ _ _ _ h1
  | timerFires r =>
    simp only [exec] at hr
    split at hr
    · exact Result.noConfusion hr
    · rw [(SlotOnly_timerFires _ _ _ hr).1]
  | timerExpires r =>
    simp only [exec] at hr
    split at hr
    · exact Result.noConfusion hr
    · rw [(SlotOnly_timerExpires _ _ _ hr).1]
  | timerRuns r =>
    simp only [exec] at hr
    split at hr
    · exact Result.noConfusion hr
    · rw [(SlotOnly_timerRuns _ _ _ hr).1]
  | waitEnd r =>
    simp only [exec] at hr
    split at hr
    · exact Result.noConfusion hr
    · rw [Result.bind_eq_ret] at hr
      obtain ⟨⟨s2, v, e⟩, h1, h2⟩ := hr
      cases h2
      unfold waitEnd at h1
      split at h1
      · exact Result.noConfusion h1
      · split at h1
        · exact mask_waitCleanup _ _ _ _ _ h1
        · exact Result.noConfusion h1

theorem mask_run (ops : List Op) (s s1 : State) (hr : run s ops = .ret s1) :
    s1.aa.andOpValMod = s.aa.andOpValMod := by
  induction ops generalizing s with
  | nil => cases hr; rfl
  | cons op rest ih =>
    simp only [run, Result.bind_eq_ret] at hr
    obtain ⟨s2, h1, h2⟩ := hr
    rw [ih s2 h2, mask_exec _ _ _ h1]

/-! ## Construction -/

theorem effectiveCount_pos (cs : List (Fin 65536)) : 0 < effectiveCount cs := by
  unfold effectiveCount
  split
  · decide
  · split
    · assumption
    · decide

theorem NewAsyncAnswer_ret (cs : List (Fin 65536)) (s : State)
    (h : NewAsyncAnswer cs = .ret s) :
    s = { aa := { waits := List.replicate (effectiveCount cs) [],
                  andOpValMod := effectiveCount cs - 1 },
          slots := [], reqs := [] } ∧ ∃ n, effectiveCount cs = 2 ^ n := by
  unfold NewAsyncAnswer at h
  unfold effectiveCount
  cases cs with
  | nil =>
    simp only [map_range_nil] at h
    cases h
    exact ⟨rfl, 8, by decide⟩
  | cons c rest =>
    simp only [map_range_nil] at h ⊢
    by_cases hc : 0 < c.val
    · simp only [hc, if_true] at h ⊢
      by_cases hp : c.val &&& (c.val - 1) = 0
      · simp only [hp, ne_eq, not_true_eq_false, if_false] at h
        cases h
        exact ⟨rfl, (and_pred_eq_zero_iff _ hc).mp hp⟩
      · simp [hp] at h
    · simp only [hc, if_false] at h ⊢
      cases h
      exact ⟨rfl, 8, by decide⟩

theorem WF_NewAsyncAnswer (cs : List (Fin 65536)) (s : State)
    (h : NewAsyncAnswer cs = .ret s) : WF s := by
  obtain ⟨hs, _⟩ := NewAsyncAnswer_ret cs s h
  have hpos := effectiveCount_pos cs
  subst hs
  refine ⟨?_, ?_, ?_⟩
  · simp; omega
  · intro r h hr
    simp at hr
  · intro i waits key a hi ha
    simp only [List.getElem?_replicate] at hi
    split at hi
    · cases hi
      simp [mapGet] at ha
    · exact Option.noConfusion hi

theorem getShard_lt (s : State) (hs : WF s) (key : Key) :
    getShard s.aa key < s.aa.waits.length := by
  have h1 : getShard s.aa key ≤ s.aa.andOpValMod := Nat.and_le_right
  have h2 := hs.1
  omega

theorem shard_exists (s : State) (hs : WF s) (key : Key) :
    ∃ waits, s.aa.waits[getShard s.aa key]? = some waits :=
  ⟨_, List.getElem?_eq_getElem (getShard_lt s hs key)⟩

/-! ## Claims on construction and sharding -/

/-- C7 (amended): `NewAsyncAnswer` panics exactly when a first count is supplied that is
positive and not a power of two; without a count it builds 256 empty shards with mask 255;
and whenever it does not panic it returns the complete registry of `count` empty shards with
mask `count - 1`, where `count` is the supplied count when positive and 256 otherwise. -/
theorem C7_NewAsyncAnswer_amended (cs : List (Fin 65536)) :
    ((∃ k s, NewAsyncAnswer cs = .panicked k s) ↔
      ∃ c rest, cs = c :: rest ∧ 0 < c.val ∧ ¬ ∃ n, c.val = 2 ^ n) ∧
    NewAsyncAnswer [] =
      .ret { aa := { waits := List.replicate 256 [], andOpValMod := 255 },
             slots := [], reqs := [] } ∧
    ((∃ k s, NewAsyncAnswer cs = .panicked k s) ∨
      NewAsyncAnswer cs =
        .ret { aa := { waits := List.replicate (effectiveCount cs) [],
                       andOpValMod := effectiveCount cs - 1 },
               slots := [], reqs := [] }) := by
  refine ⟨?_, ?_, ?_⟩
  · cases cs with
    | nil =>
      constructor
      · rintro ⟨k, s, h⟩
        simp [NewAsyncAnswer] at h
      · rintro ⟨c, rest, h, _⟩
        exact List.noConfusion h
    | cons c rest =>
      by_cases hc : 0 < c.val
      · by_cases hp : c.val &&& (c.val - 1) = 0
        · constructor
          · rintro ⟨k, s, h⟩
            simp [NewAsyncAnswer, hc, hp] at h
          · rintro ⟨c2, rest2, h, _, hn⟩
            cases h
            exact absurd ((and_pred_eq_zero_iff _ hc).mp hp) hn
        · constructor
          · intro _
            exact ⟨c, rest, rfl, hc, fun hn => hp ((and_pred_eq_zero_iff _ hc).mpr hn)⟩
          · intro _
            exact ⟨.shardCountNotPowerOfTwo, { aa := { waits := [], andOpValMod := 0 }, slots := [], reqs := [] }, by simp only [NewAsyncAnswer, hc, hp, ne_eq, not_false_eq_true, if_true]⟩
      · constructor
        · rintro ⟨k, s, h⟩
          simp [NewAsyncAnswer, hc] at h
        · rintro ⟨c2, rest2, h, hc2, _⟩
          cases h
          exact absurd hc2 hc
  · simp only [NewAsyncAnswer, map_range_nil]
    rfl
  · cases hres : NewAsyncAnswer cs with
    | ret s =>
      right
      rw [(NewAsyncAnswer_ret cs s hres).1]
    | panicked k s => exact Or.inl ⟨k, s, rfl⟩
    | blocked s =>
      exfalso
      unfold NewAsyncAnswer at hres
      dsimp only at hres
      split at hres
      · exact Result.noConfusion hres
      · split at hres
        · split at hres <;> exact Result.noConfusion hres
        · exact Result.noConfusion hres

/-- C7 (as stated) fails at the supplied count 0: it is supplied and it is not a power of
two, yet `NewAsyncAnswer` does not panic and returns the default registry of 256 shards. -/
theorem C7_zero_count_counterexample :
    ¬ ((∃ k s, NewAsyncAnswer [0] = .panicked k s) ↔
        ∃ c rest, ([0] : List (Fin 65536)) = c :: rest ∧ ¬ ∃ n, c.val = 2 ^ n) ∧
    NewAsyncAnswer [0] =
      .ret { aa := { waits := List.replicate 256 [], andOpValMod := 255 },
             slots := [], reqs := [] } := by
  have hret : NewAsyncAnswer [0] =
      .ret { aa := { waits := List.replicate 256 [], andOpValMod := 255 },
             slots := [], reqs := [] } := by
    simp only [NewAsyncAnswer, map_range_nil]
    rfl
  refine ⟨?_, hret⟩
  intro hiff
  have hrhs : ∃ c rest, ([0] : List (Fin 65536)) = c :: rest ∧ ¬ ∃ n, c.val = 2 ^ n :=
    ⟨0, [], rfl, by
      rintro ⟨n, hn⟩
      have : 0 < 2 ^ n := Nat.two_pow_pos n
      have h0 : ((0 : Fin 65536).val) = 0 := rfl
      omega⟩
  obtain ⟨k, s, h⟩ := hiff.mpr hrhs
  rw [hret] at h
  exact Result.noConfusion h

/-- C10: in every state reached from a registry returned by `NewAsyncAnswer`, the number of
shards is the count, the index computed by `getShard` is below the number of shards and equals
the hash modulo the count, and every handle refers to the shard `getShard` computes for its
key. -/
theorem C10_shard_index_in_bounds (cs : List (Fin 65536)) (s0 : State)
    (h0 : NewAsyncAnswer cs = .ret s0) (ops : List Op) (s : State)
    (hrun : run s0 ops = .ret s) (key : Key) :
    s.aa.waits.length = effectiveCount cs ∧
    getShard s.aa key < s.aa.waits.length ∧
    getShard s.aa key = fnv32a key % effectiveCount cs ∧
    (∀ (r : Nat) (h : reqCli), s.reqs[r]? = some h → h.shard = getShard s.aa h.key) := by
  have hwf0 := WF_NewAsyncAnswer cs s0 h0
  have hwf := WF_run ops s0 s hwf0 hrun
  have hmask := mask_run ops s0 s hrun
  obtain ⟨hs0, n, hn⟩ := NewAsyncAnswer_ret cs s0 h0
  have hm0 : s0.aa.andOpValMod = effectiveCount cs - 1 := by rw [hs0]
  have hpos := effectiveCount_pos cs
  have hlen : s.aa.waits.length = effectiveCount cs := by
    rw [hwf.1, hmask, hm0]; omega
  refine ⟨hlen, getShard_lt s hwf key, ?_, fun r h hr => (hwf.2.1 r h hr).1⟩
  unfold getShard
  rw [hmask, hm0, hn, Nat.and_pow_two_sub_one_eq_mod]

/-- C10 at a concrete run: four shards, the key `"k"` applied. -/
theorem C10_shard_index_in_bounds_witness :
    NewAsyncAnswer [4] = .ret exEmpty ∧ run exEmpty [Op.applyReq exKey] = .ret exApplied ∧
    exApplied.aa.waits.length = effectiveCount [4] ∧
    getShard exApplied.aa exKey < exApplied.aa.waits.length ∧
    getShard exApplied.aa exKey = fnv32a exKey % effectiveCount [4] ∧
    (∀ (r : Nat) (h : reqCli), exApplied.reqs[r]? = some h →
      h.shard = getShard exApplied.aa h.key) :=
  ⟨by decide, by decide,
    C10_shard_index_in_bounds [4] exEmpty (by decide) [Op.applyReq exKey] exApplied
      (by decide) exKey⟩

/-! ## Claims on `ApplyReq` and `AnswerReq` -/

theorem ApplyReq_outstanding (s : State) (key : Key) (ho : Outstanding s key) :
    ApplyReq s key = .ret (s, none, false) := by
  obtain ⟨waits, a, hw, ha⟩ := ho
  unfold ApplyReq
  simp only [hw, ha]

theorem ApplyReq_not_outstanding (s : State) (hs : WF s) (key : Key)
    (hno : ¬ Outstanding s key) :
    ∃ s1, ApplyReq s key = .ret (s1, some s.reqs.length, true) := by
  obtain ⟨waits, hw⟩ := shard_exists s hs key
  have hget : mapGet waits key = none := by
    cases hg : mapGet waits key with
    | none => rfl
    | some a => exact absurd ⟨waits, a, hw, hg⟩ hno
  unfold ApplyReq
  simp only [hw, hget]
  exact ⟨_, rfl⟩

/-- C3: `ApplyReq` on an outstanding key returns `(nil, false)` and the state is exactly the
one before; and in every well-formed state `ApplyReq` returns, with flag true exactly when the
key is not outstanding. -/
theorem C3_ApplyReq_outstanding_refused (s : State) (hs : WF s) (key : Key) :
    (Outstanding s key → ApplyReq s key = .ret (s, none, false)) ∧
    (∃ s1 r ok, ApplyReq s key = .ret (s1, r, ok) ∧ (ok = true ↔ ¬ Outstanding s key)) := by
  refine ⟨ApplyReq_outstanding s key, ?_⟩
  by_cases ho : Outstanding s key
  · exact ⟨s, none, false, ApplyReq_outstanding s key ho, by simp [ho]⟩
  · obtain ⟨s1, h1⟩ := ApplyReq_not_outstanding s hs key ho
    exact ⟨s1, _, true, h1, by simp [ho]⟩

theorem WF_exApplied : WF exApplied := by
  refine ⟨by decide, ?_, ?_⟩
  · intro r h hr
    match r with
    | 0 =>
      simp [exApplied] at hr
      subst hr
      exact ⟨by decide, by decide⟩
    | n + 1 => simp [exApplied] at hr
  · intro i waits key a hi ha
    have hlen : exApplied.slots.length = 1 := rfl
    rw [hlen]
    match i with
    | 0 | 1 | 3 =>
      simp [exApplied] at hi
      subst hi
      simp [mapGet] at ha
    | 2 =>
      simp [exApplied] at hi
      subst hi
      simp only [mapGet] at ha
      split at ha
      · cases ha; decide
      · exact Option.noConfusion ha
    | n + 4 => simp [exApplied] at hi

/-- C3 at the state where `"k"` was applied once: the second `ApplyReq("k")` is refused. -/
theorem C3_ApplyReq_outstanding_refused_witness :
    Outstanding exApplied exKey ∧ ApplyReq exApplied exKey = .ret (exApplied, none, false) :=
  ⟨⟨[(exKey, 0)], 0, by decide, by decide⟩,
    (C3_ApplyReq_outstanding_refused exApplied WF_exApplied exKey).1
      ⟨[(exKey, 0)], 0, by decide, by decide⟩⟩

/-- C8: `AnswerReq` for a key that is not outstanding returns with the state exactly as it
was. -/
theorem C8_AnswerReq_absent_noop (s : State) (hs : WF s) (key : Key) (v : Value) (e : Err)
    (hno : ¬ Outstanding s key) : AnswerReq s key v e = .ret s := by
  obtain ⟨waits, hw⟩ := shard_exists s hs key
  have hget : mapGet waits key = none := by
    cases hg : mapGet waits key with
    | none => rfl
    | some a => exact absurd ⟨waits, a, hw, hg⟩ hno
  unfold AnswerReq
  simp only [hw, hget]

/-- C8 at the state where only `"k"` is outstanding: answering `"j"` changes nothing. -/
theorem C8_AnswerReq_absent_noop_witness :
    ¬ Outstanding exApplied [106] ∧
    AnswerReq exApplied [106] (some "ok") none = .ret exApplied :=
  have hno : ¬ Outstanding exApplied [106] := by
    rintro ⟨waits, a, hw, ha⟩
    have h1 : exApplied.aa.waits[getShard exApplied.aa [106]]? = some [] := by decide
    rw [h1] at hw
    cases hw
    simp [mapGet] at ha
  ⟨hno, C8_AnswerReq_absent_noop exApplied WF_exApplied [106] (some "ok") none hno⟩

/-! ## A freshly applied key -/

theorem getElem?_set_same {α : Type} (l : List α) (i : Nat) (a b : α) (h : l[i]? = some a) :
    (l.set i b)[i]? = some b := by
  have hlt : i < l.length := by
    by_contra hge
    rw [List.getElem?_eq_none (by omega)] at h
    exact Option.noConfusion h
  simp [List.getElem?_set, hlt]

theorem getElem?_lt {α : Type} (l : List α) (i : Nat) (a : α) (h : l[i]? = some a) :
    i < l.length := by
  by_contra hge
  rw [List.getElem?_eq_none (by omega)] at h
  exact Option.noConfusion h

theorem ApplyReq_fresh (s0 s1 : State) (key : Key) (r : Nat)
    (h : ApplyReq s0 key = .ret (s1, some r, true)) :
    Fresh s1 key r ∧ r = s0.reqs.length ∧ s1.slots.length = s0.slots.length + 1 ∧
    (∀ r2, r2 < s0.reqs.length → s1.reqs[r2]? = s0.reqs[r2]?) ∧
    (∃ hd, s1.reqs[r]? = some hd ∧ hd.w = s0.slots.length) := by
  unfold ApplyReq at h
  dsimp only at h
  split at h
  · exact Result.noConfusion h
  · rename_i waits hw
    split at h
    · cases h
    · cases h
      have hreq : ∀ q : reqCli, (s0.reqs ++ [q])[s0.reqs.length]? = some q := by
        intro q
        simp
      refine ⟨⟨_, mapSet waits key s0.slots.length, hreq _, rfl, rfl, rfl, ?_, ?_, ?_⟩,
        rfl, by simp, ?_, ⟨_, hreq _, rfl⟩⟩
      · exact getElem?_set_same _ _ _ _ hw
      · simp [mapSet, mapGet]
      · simp
      · intro r2 hr2
        exact List.getElem?_append_left hr2

theorem AnswerReq_fresh (s : State) (key : Key) (r : Nat) (h : reqCli) (v : Value) (e : Err)
    (hr : s.reqs[r]? = some h) (hf : Fresh s key r) :
    AnswerReq s key v e =
      .ret { s with slots := s.slots.set h.w { v := v, e := e, t := none, w := 0 } } := by
  obtain ⟨h2, waits, hr2, _, _, hshard, hw, hget, hslot⟩ := hf
  rw [hr] at hr2
  cases hr2
  unfold AnswerReq
  dsimp only
  rw [← hshard, hw]
  simp only [hget, hslot, wgDone]
  rfl

theorem WaitAnswer_signalled (s : State) (r : Nat) (h : reqCli) (w : waitData) (t : Int)
    (hr : s.reqs[r]? = some h) (hflag : h.isWait = 0) (hslot : s.slots[h.w]? = some w)
    (hw : w.w = 0) (ht : w.t = none) :
    WaitAnswer s r t .quiet =
      .ret ({ aa := shardDelete s.aa h.shard h.key,
              slots := s.slots.set h.w
                { w with t := if 0 < t then some .stopped else none },
              reqs := s.reqs.set r { h with isWait := 1 } }, w.v, w.e) := by
  unfold WaitAnswer waitBegin
  simp only [hr, casIsWait, hflag, if_true]
  by_cases hpos : 0 < t
  · simp only [hpos, if_true, armTimer, hslot, Result.bind, awaitSignal, timerBeforeStop,
      getElem?_set_same _ _ _ _ hslot, hw, waitCleanup, Option.map, Timer.Stop,
      List.set_set]
  · simp only [hpos, if_false, Result.bind, awaitSignal, timerBeforeStop, hslot, hw, if_true,
      waitCleanup, ht, Option.map]

theorem WaitAnswer_answered (s : State) (r : Nat) (h : reqCli) (w : waitData) (t : Int)
    (sched : Schedule) (hr : s.reqs[r]? = some h) (hflag : h.isWait = 0)
    (hslot : s.slots[h.w]? = some w) (hw : w.w = 0) (ht : w.t = none) :
    (∃ s1, WaitAnswer s r t sched = .ret (s1, w.v, w.e)) ∨
    (sched = .early ∧ 0 < t ∧ w.v = none ∧ w.e = none ∧
      ∃ s1, WaitAnswer s r t sched = .panicked .negativeWaitGroupCounter s1) := by
  have hlt := getElem?_lt _ _ _ hslot
  cases sched with
  | quiet => exact Or.inl ⟨_, WaitAnswer_signalled s r h w t hr hflag hslot hw ht⟩
  | late =>
    left
    unfold WaitAnswer waitBegin
    simp only [hr, casIsWait, hflag, if_true]
    by_cases hpos : 0 < t
    · simp [hpos, armTimer, hslot, Result.bind, awaitSignal, timerBeforeStop, timerExpires,
        hlt, hw, waitCleanup, Timer.Stop]
    · simp [hpos, Result.bind, awaitSignal, timerBeforeStop, timerExpires, hslot, hw,
        waitCleanup, ht]
  | early =>
    unfold WaitAnswer waitBegin
    simp only [hr, casIsWait, hflag, if_true]
    by_cases hpos : 0 < t
    · by_cases hnil : w.v = none ∧ w.e = none
      · right
        refine ⟨trivial, hpos, hnil.1, hnil.2, ?_⟩
        simp [hpos, armTimer, hslot, Result.bind, timerBeforeStop, timerFires, timerFunc,
          wgDone, hlt, hw, hnil.1, hnil.2]
      · left
        have hg : ¬ w.v = none ∨ ¬ w.e = none := by
          by_cases hv : w.v = none
          · exact Or.inr (fun he => hnil ⟨hv, he⟩)
          · exact Or.inl hv
        simp [hpos, armTimer, hslot, Result.bind, awaitSignal, timerBeforeStop, timerFires,
          timerFunc, hlt, hw, hg, waitCleanup, Timer.Stop]
    · left
      simp [hpos, Result.bind, awaitSignal, timerBeforeStop, timerFires, hslot, hw,
        waitCleanup, ht]

theorem WaitAnswer_timeout (s : State) (key : Key) (r : Nat) (h : reqCli) (d : Int)
    (sched : Schedule) (hd : 0 < d) (hr : s.reqs[r]? = some h) (hf : Fresh s key r) :
    WaitAnswer s r d sched =
      .ret ({ aa := shardDelete s.aa h.shard h.key,
              slots := s.slots.set h.w
                { v := none, e := some .DeadlineExceeded, t := some .fired, w := 0 },
              reqs := s.reqs.set r { h with isWait := 1 } },
            none, some .DeadlineExceeded) := by
  obtain ⟨h2, waits, hr2, hflag, _, _, _, _, hslot⟩ := hf
  rw [hr] at hr2
  cases hr2
  have hlt := getElem?_lt _ _ _ hslot
  unfold WaitAnswer waitBegin
  simp only [hr, casIsWait, hflag, if_true, hd, armTimer, hslot, Result.bind]
  cases sched with
  | quiet =>
    simp [timerBeforeStop, awaitSignal, timerFires, timerFunc, wgDone, Result.bind, recheck,
      waitCleanup, hlt, Timer.Stop]
  | early =>
    simp [timerBeforeStop, awaitSignal, timerFires, timerFunc, wgDone, Result.bind, recheck,
      waitCleanup, hlt, Timer.Stop]
  | late =>
    simp [timerBeforeStop, awaitSignal, timerExpires, timerRuns, timerFunc, wgDone,
      Result.bind, recheck, waitCleanup, hlt, Timer.Stop]

/-! ## Claims on `WaitAnswer` -/

/-- C1 fails on the code for an answer `(nil, nil)` and a positive timeout.  After
`ApplyReq("k")` and `AnswerReq("k", nil, nil)`, `WaitAnswer(1)` returns `(nil, nil)` only when
the cleanup stops the timer before it expires.  When the function of the timer runs before the
cleanup it finds both fields nil, stores the deadline error and calls `Done` a second time,
which panics on the negative counter, so the call does not return; when the timer expires
before `Stop` and its function runs after the cleanup, the call returns `(nil, nil)` and the
function panics afterwards. -/
theorem C1_nil_answer_timer_signals_again :
    ApplyReq exEmpty exKey = .ret (exApplied, some 0, true) ∧
    AnswerReq exApplied exKey none none = .ret exNilAnswered ∧
    WaitAnswer exNilAnswered 0 1 .early =
      .panicked .negativeWaitGroupCounter
        (exSlot { v := none, e := some .DeadlineExceeded, t := some .fired, w := -1 }) ∧
    run exNilAnswered [Op.waitBegin 0 1, Op.timerFires 0] =
      .panicked .negativeWaitGroupCounter
        (exSlot { v := none, e := some .DeadlineExceeded, t := some .fired, w := -1 }) ∧
    WaitAnswer exNilAnswered 0 1 .quiet =
      .ret (exRemoved { v := none, e := none, t := some .stopped, w := 0 }, none, none) ∧
    WaitAnswer exNilAnswered 0 1 .late =
      .ret (exRemoved { v := none, e := none, t := some .expired, w := 0 }, none, none) ∧
    run (exRemoved { v := none, e := none, t := some .expired, w := 0 }) [Op.timerRuns 0] =
      .panicked .negativeWaitGroupCounter
        (exRemoved { v := none, e := some .DeadlineExceeded, t := some .fired, w := -1 }) := by
  refine ⟨by decide, by decide, by decide, by decide, by decide, by decide, by decide⟩

/-- C2: after `ApplyReq(k)` returned a handle and with no answer, `WaitAnswer(d)` with a
positive `d` returns, through the firing of its timer, exactly `(nil, DeadlineExceeded)`,
whatever the schedule of the timer. -/
theorem C2_wait_times_out (s0 s1 : State) (key : Key) (r : Nat)
    (happly : ApplyReq s0 key = .ret (s1, some r, true)) (d : Int) (hd : 0 < d)
    (sched : Schedule) :
    ∃ s2, WaitAnswer s1 r d sched = .ret (s2, none, some .DeadlineExceeded) := by
  obtain ⟨hf, _⟩ := ApplyReq_fresh s0 s1 key r happly
  obtain ⟨h, waits, hr, _⟩ := id hf
  exact ⟨_, WaitAnswer_timeout s1 key r h d sched hd hr hf⟩

/-- C2 on the registry of four shards, with a timeout of 200. -/
theorem C2_wait_times_out_witness :
    ApplyReq exEmpty exKey = .ret (exApplied, some 0, true) ∧ (0 : Int) < 200 ∧
    ∃ s2, WaitAnswer exApplied 0 200 .quiet = .ret (s2, none, some .DeadlineExceeded) :=
  ⟨by decide, by decide,
    C2_wait_times_out exEmpty exApplied exKey 0 (by decide) 200 (by decide) .quiet⟩

/-! ## The flag of a handle -/

theorem Consumed_set (l : List reqCli) (r : Nat) (h : reqCli) (hh : l[r]? = some h) :
    ∃ h1 : reqCli, (l.set r { h with isWait := 1 })[r]? = some h1 ∧ h1.isWait ≠ 0 :=
  ⟨_, getElem?_set_same _ _ _ _ hh, by simp⟩

theorem WaitAnswer_flag_set (s : State) (r : Nat) (t : Int) (sched : Schedule)
    (hc : Consumed s r) :
    WaitAnswer s r t sched = .ret (s, none, some .ErrRepetitionCallWaitAnswer) := by
  obtain ⟨h, hr, hflag⟩ := hc
  unfold WaitAnswer waitBegin
  simp only [hr, casIsWait, hflag, if_false, Result.bind]

theorem Delete_flag_set (s : State) (r : Nat) (hc : Consumed s r) : Delete s r = .ret s := by
  obtain ⟨h, hr, hflag⟩ := hc
  unfold Delete
  simp only [hr, casIsWait, hflag, if_false]

theorem Consumed_WaitAnswer (s s1 : State) (r : Nat) (t : Int) (sched : Schedule) (v : Value)
    (e : Err) (hr : WaitAnswer s r t sched = .ret (s1, v, e)) : Consumed s1 r := by
  cases hh : s.reqs[r]? with
  | none =>
    unfold WaitAnswer at hr
    simp only [hh] at hr
    exact Result.noConfusion hr
  | some h =>
    by_cases h0 : h.isWait = 0
    · obtain ⟨_, hq, _, _⟩ := WaitAnswer_ret s s1 r h t sched v e hh h0 hr
      unfold Consumed
      rw [hq]
      exact Consumed_set _ _ _ hh
    · rw [WaitAnswer_flag_set s r t sched ⟨h, hh, h0⟩] at hr
      cases hr
      exact ⟨h, hh, h0⟩

theorem Consumed_waitBegin (s s1 : State) (r : Nat) (t : Int)
    (hr : waitBegin s r t = .ret (some s1)) : Consumed s1 r := by
  cases hh : s.reqs[r]? with
  | none =>
    unfold waitBegin at hr
    simp only [hh] at hr
    exact Result.noConfusion hr
  | some h =>
    unfold Consumed
    rw [(waitBegin_ret _ _ _ _ _ hh hr).2.2.1]
    exact Consumed_set _ _ _ hh

theorem Consumed_Delete (s s1 : State) (r : Nat) (hr : Delete s r = .ret s1) :
    Consumed s1 r := by
  unfold Delete at hr
  split at hr
  · exact Result.noConfusion hr
  · rename_i h hh
    unfold casIsWait at hr
    by_cases h0 : h.isWait = 0
    · simp only [h0, if_true] at hr
      cases hr
      exact Consumed_set _ _ _ hh
    · simp only [h0, if_false] at hr
      cases hr
      exact ⟨h, hh, h0⟩

theorem Consumed_ApplyReq (s s1 : State) (key : Key) (r : Nat) (r2 : Option Nat) (ok : Bool)
    (hc : Consumed s r) (h : ApplyReq s key = .ret (s1, r2, ok)) : Consumed s1 r := by
  obtain ⟨hd, hr, hflag⟩ := hc
  unfold ApplyReq at h
  dsimp only at h
  split at h
  · exact Result.noConfusion h
  · split at h
    · cases h; exact ⟨hd, hr, hflag⟩
    · cases h
      exact ⟨hd, by rw [List.getElem?_append_left (getElem?_lt _ _ _ hr)]; exact hr, hflag⟩

/-- C4: whenever a call of `WaitAnswer` on a handle has returned, whatever it returned and
whatever its timer did, every later `WaitAnswer` on that handle, for every timeout and every
schedule, returns `(nil, ErrRepetitionCallWaitAnswer)` and leaves the whole state as it
was. -/
theorem C4_repeated_WaitAnswer (s s1 : State) (r : Nat) (t1 : Int) (sched1 : Schedule)
    (v1 : Value) (e1 : Err) (hfirst : WaitAnswer s r t1 sched1 = .ret (s1, v1, e1)) (t2 : Int)
    (sched2 : Schedule) :
    WaitAnswer s1 r t2 sched2 = .ret (s1, none, some .ErrRepetitionCallWaitAnswer) :=
  WaitAnswer_flag_set s1 r t2 sched2 (Consumed_WaitAnswer s s1 r t1 sched1 v1 e1 hfirst)

/-- C4 on the registry of four shards: the first wait for `"k"` times out, the second is
refused. -/
theorem C4_repeated_WaitAnswer_witness :
    WaitAnswer exApplied 0 200 .quiet = .ret (exTimedOut, none, some .DeadlineExceeded) ∧
    WaitAnswer exTimedOut 0 (-1) .early =
      .ret (exTimedOut, none, some .ErrRepetitionCallWaitAnswer) :=
  ⟨by decide,
    C4_repeated_WaitAnswer exApplied exTimedOut 0 200 .quiet none (some .DeadlineExceeded)
      (by decide) (-1) .early⟩

/-- C9: `Delete` on a handle whose flag is set returns with the state exactly as it was; so a
second `Delete` changes nothing, a `Delete` after `WaitAnswer` has begun or has returned
changes nothing, and after a `Delete` and a later `ApplyReq` of any key the old handle still
removes nothing. -/
theorem C9_Delete_consumed_noop (s : State) (r : Nat) (h : reqCli)
    (hr : s.reqs[r]? = some h) :
    (h.isWait ≠ 0 → Delete s r = .ret s) ∧
    (∃ s1, Delete s r = .ret s1 ∧ Delete s1 r = .ret s1) ∧
    (∀ t s1, waitBegin s r t = .ret (some s1) → Delete s1 r = .ret s1) ∧
    (∀ t sched s1 v e, WaitAnswer s r t sched = .ret (s1, v, e) → Delete s1 r = .ret s1) ∧
    (∀ s1 s2 key r2 ok, Delete s r = .ret s1 → ApplyReq s1 key = .ret (s2, r2, ok) →
      Delete s2 r = .ret s2) := by
  refine ⟨fun hflag => Delete_flag_set s r ⟨h, hr, hflag⟩, ?_, ?_, ?_, ?_⟩
  · have hex : ∃ s1, Delete s r = .ret s1 := by
      unfold Delete
      simp only [hr, casIsWait]
      split <;> exact ⟨_, rfl⟩
    obtain ⟨s1, h1⟩ := hex
    exact ⟨s1, h1, Delete_flag_set s1 r (Consumed_Delete s s1 r h1)⟩
  · intro t s1 hb
    exact Delete_flag_set s1 r (Consumed_waitBegin s s1 r t hb)
  · intro t sched s1 v e hw
    exact Delete_flag_set s1 r (Consumed_WaitAnswer s s1 r t sched v e hw)
  · intro s1 s2 key r2 ok hd ha
    exact Delete_flag_set s2 r (Consumed_ApplyReq s1 s2 key r r2 ok (Consumed_Delete s s1 r hd) ha)

/-- C9 at the state where `"k"` was applied: the handle exists, and two calls of `Delete`
leave the state of one. -/
theorem C9_Delete_consumed_noop_witness :
    exApplied.reqs[0]? = some { isWait := 0, key := exKey, shard := 2, w := 0 } ∧
    ∃ s1, Delete exApplied 0 = .ret s1 ∧ Delete s1 0 = .ret s1 :=
  ⟨by decide,
    (C9_Delete_consumed_noop exApplied 0 { isWait := 0, key := exKey, shard := 2, w := 0 }
      (by decide)).2.1⟩

/-! ## Reuse of a key -/

theorem shardDelete_get (a : asyncAnswer) (shard : Nat) (key : Key) (waits : ShardMap)
    (hw : a.waits[shard]? = some waits) :
    (shardDelete a shard key).waits[shard]? = some (mapDelete waits key) := by
  unfold shardDelete
  simp only [hw]
  exact getElem?_set_same _ _ _ _ hw

theorem Reusable_of_removed (s : State) (a : asyncAnswer) (key : Key) (r : Nat) (h : reqCli)
    (waits : ShardMap) (haa : s.aa = shardDelete a (getShard a key) key)
    (hw : a.waits[getShard a key]? = some waits) (hr : s.reqs[r]? = some h)
    (hlt : h.w < s.slots.length) : Reusable s key r := by
  have hsh : getShard s.aa key = getShard a key := by rw [haa, getShard_shardDelete]
  have hget : s.aa.waits[getShard s.aa key]? = some (mapDelete waits key) := by
    rw [hsh, haa]
    exact shardDelete_get a _ key waits hw
  have hno : ¬ Outstanding s key := by
    rintro ⟨ws, b, h1, h2⟩
    rw [hget] at h1
    cases h1
    rw [mapGet_mapDelete_self] at h2
    exact Option.noConfusion h2
  have happ : ∃ s1, ApplyReq s key = .ret (s1, some s.reqs.length, true) := by
    unfold ApplyReq
    simp only [hget, mapGet_mapDelete_self]
    exact ⟨_, rfl⟩
  obtain ⟨s1, h1⟩ := happ
  obtain ⟨hf, _, _, hold, hd, hd1, hd2⟩ := ApplyReq_fresh s s1 key _ h1
  have hrlt := getElem?_lt _ _ _ hr
  refine ⟨hno, s1, s.reqs.length, h1, hf, by omega, h, hd, ?_, hd1, by omega⟩
  rw [hold r hrlt]
  exact hr

theorem Delete_fresh (s : State) (r : Nat) (h : reqCli)
    (hr : s.reqs[r]? = some h) (hflag : h.isWait = 0) :
    Delete s r = .ret { s with reqs := s.reqs.set r { h with isWait := 1 },
                               aa := shardDelete s.aa h.shard h.key } := by
  unfold Delete
  simp only [hr, casIsWait, hflag, if_true]

theorem Reusable_of_waitCleanup (s s1 : State) (r : Nat) (h hd : reqCli) (waits : ShardMap)
    (v : Value) (e : Err) (hq : s.reqs[r]? = some hd) (hwe : hd.w = h.w)
    (hshard : h.shard = getShard s.aa h.key) (hw : s.aa.waits[h.shard]? = some waits)
    (hc : waitCleanup s h = .ret (s1, v, e)) : Reusable s1 h.key r := by
  obtain ⟨ha, hr, hl, hlt⟩ := waitCleanup_ret s s1 h v e hc
  rw [hshard] at hw ha
  exact Reusable_of_removed s1 s.aa h.key r hd waits ha hw (by rw [hr]; exact hq)
    (by rw [hl, hwe]; exact hlt)

theorem Reusable_of_waitEnd (s s1 : State) (r : Nat) (h hd : reqCli) (waits : ShardMap)
    (v : Value) (e : Err) (hq : s.reqs[r]? = some hd) (hwe : hd.w = h.w)
    (hshard : h.shard = getShard s.aa h.key) (hw : s.aa.waits[h.shard]? = some waits)
    (hc : waitEnd s h = .ret (s1, v, e)) : Reusable s1 h.key r := by
  unfold waitEnd at hc
  split at hc
  · exact Result.noConfusion hc
  · split at hc
    · exact Reusable_of_waitCleanup s s1 r h hd waits v e hq hwe hshard hw hc
    · exact Result.noConfusion hc

theorem Reusable_of_WaitAnswer (s s1 : State) (r : Nat) (h : reqCli) (waits : ShardMap)
    (t : Int) (sched : Schedule) (v : Value) (e : Err) (hq : s.reqs[r]? = some h)
    (h0 : h.isWait = 0) (hshard : h.shard = getShard s.aa h.key)
    (hw : s.aa.waits[h.shard]? = some waits)
    (hc : WaitAnswer s r t sched = .ret (s1, v, e)) : Reusable s1 h.key r := by
  obtain ⟨ha, hr, hl, hlt⟩ := WaitAnswer_ret s s1 r h t sched v e hq h0 hc
  rw [hshard] at hw ha
  exact Reusable_of_removed s1 s.aa h.key r { h with isWait := 1 } waits ha hw
    (by rw [hr]; exact getElem?_set_same _ _ _ _ hq) (by rw [hl]; exact hlt)

theorem waitBegin_fresh (s : State) (key : Key) (r : Nat) (h : reqCli) (t : Int)
    (hr : s.reqs[r]? = some h) (hf : Fresh s key r) :
    ∃ s2 w2, waitBegin s r t = .ret (some s2) ∧ s2.aa = s.aa ∧
      s2.reqs[r]? = some { h with isWait := 1 } ∧ s2.slots[h.w]? = some w2 ∧
      w2.w = 1 := by
  obtain ⟨h2, waits, hr2, hflag, _, _, _, _, hslot⟩ := hf
  rw [hr] at hr2
  cases hr2
  have hset := getElem?_set_same _ _ _ ({ h with isWait := 1 } : reqCli) hr
  unfold waitBegin
  simp only [hr, casIsWait, hflag, if_true]
  by_cases hpos : 0 < t
  · simp only [hpos, if_true, armTimer, hslot, Result.bind]
    exact ⟨_, _, rfl, rfl, hset, getElem?_set_same _ _ _ _ hslot, rfl⟩
  · simp only [hpos, if_false]
    exact ⟨_, _, rfl, rfl, hset, hslot, rfl⟩

theorem AnswerReq_at (s : State) (key : Key) (v : Value) (e : Err) (waits : ShardMap)
    (a : Nat) (w : waitData) (hw : s.aa.waits[getShard s.aa key]? = some waits)
    (hget : mapGet waits key = some a) (hslot : s.slots[a]? = some w) (hc : w.w = 1) :
    AnswerReq s key v e =
      .ret { s with slots := s.slots.set a { v := v, e := e, t := w.t, w := 0 } } := by
  unfold AnswerReq
  dsimp only
  simp only [hw, hget, hslot, wgDone, hc]
  rfl

theorem waitEnd_signalled (s : State) (h : reqCli) (w : waitData)
    (hslot : s.slots[h.w]? = some w) (hc : w.w = 0) :
    ∃ s1, waitEnd s h = .ret (s1, w.v, w.e) := by
  unfold waitEnd waitCleanup
  simp only [hslot, hc, if_true]
  exact ⟨_, rfl⟩

/-- C5: after `ApplyReq(k)` returned a handle, each way of removing `k` through the handle
leaves `k` absent from its shard mapping, and the next `ApplyReq(k)` returns true with a new
handle whose slot has no value and no error and is another slot than the old one.  The ways
are: `Delete` before any wait; `WaitAnswer` called after the answer (it returns the answer
when the cleanup stops the timer first, and whenever it returns under any schedule of the
timer the key is reusable); `WaitAnswer` begun first and answered while it is blocked;
`WaitAnswer` returning the timeout under every schedule.  Moreover in every well-formed
state, whenever the cleanup of a waiter, a whole `WaitAnswer` or a `Delete` on an unconsumed
handle returns, the key of the handle is reusable. -/
theorem C5_removed_key_reusable (s0 s1 : State) (key : Key) (r : Nat)
    (happly : ApplyReq s0 key = .ret (s1, some r, true)) :
    (∃ s2, Delete s1 r = .ret s2 ∧ Reusable s2 key r) ∧
    (∀ v e t, ∃ s2, AnswerReq s1 key v e = .ret s2 ∧
      (∃ s3, WaitAnswer s2 r t .quiet = .ret (s3, v, e) ∧ Reusable s3 key r) ∧
      (∀ sched s3 v1 e1, WaitAnswer s2 r t sched = .ret (s3, v1, e1) →
        v1 = v ∧ e1 = e ∧ Reusable s3 key r)) ∧
    (∀ v e t, ∃ h s2 s3 s4, s1.reqs[r]? = some h ∧ waitBegin s1 r t = .ret (some s2) ∧
      AnswerReq s2 key v e = .ret s3 ∧ waitEnd s3 h = .ret (s4, v, e) ∧
      Reusable s4 key r) ∧
    (∀ d : Int, 0 < d → ∀ sched, ∃ s2,
      WaitAnswer s1 r d sched = .ret (s2, none, some .DeadlineExceeded) ∧
      Reusable s2 key r) ∧
    (∀ (s : State) (r1 : Nat) (h : reqCli), WF s → s.reqs[r1]? = some h →
      (∀ s2 v e, waitEnd s h = .ret (s2, v, e) → Reusable s2 h.key r1) ∧
      (h.isWait = 0 → ∀ t sched s2 v e, WaitAnswer s r1 t sched = .ret (s2, v, e) →
        Reusable s2 h.key r1) ∧
      (h.isWait = 0 → ∃ s2, Delete s r1 = .ret s2 ∧ Reusable s2 h.key r1)) := by
  obtain ⟨hf, _⟩ := ApplyReq_fresh s0 s1 key r happly
  obtain ⟨h, waits, hr, hflag, hkey, hshard, hw, hget, hslot⟩ := id hf
  subst hkey
  have hlt := getElem?_lt _ _ _ hslot
  have hset : (s1.reqs.set r { h with isWait := 1 })[r]? = some { h with isWait := 1 } :=
    getElem?_set_same _ _ _ _ hr
  have hshard2 : h.shard = getShard s1.aa h.key := hshard
  refine ⟨?_, ?_, ?_, ?_, ?_⟩
  · refine ⟨_, Delete_fresh s1 r h hr hflag, ?_⟩
    rw [hshard] at hw
    exact Reusable_of_removed _ s1.aa h.key r { h with isWait := 1 } waits
      (by rw [hshard]) hw hset hlt
  · intro v e t
    have hslot2 := getElem?_set_same _ _ _
      ({ v := v, e := e, t := none, w := 0 } : waitData) hslot
    refine ⟨_, AnswerReq_fresh s1 h.key r h v e hr hf, ?_, ?_⟩
    · have hwait := WaitAnswer_signalled
        { s1 with slots := s1.slots.set h.w { v := v, e := e, t := none, w := 0 } } r h
        { v := v, e := e, t := none, w := 0 } t hr hflag hslot2 rfl rfl
      refine ⟨_, hwait, ?_⟩
      have := Reusable_of_WaitAnswer
        { s1 with slots := s1.slots.set h.w { v := v, e := e, t := none, w := 0 } } _ r h
        waits t .quiet _ _ hr hflag hshard2 hw hwait
      exact this
    · intro sched s3 v1 e1 hret
      have hre := Reusable_of_WaitAnswer
        { s1 with slots := s1.slots.set h.w { v := v, e := e, t := none, w := 0 } } _ r h
        waits t sched _ _ hr hflag hshard2 hw hret
      rcases WaitAnswer_answered
        { s1 with slots := s1.slots.set h.w { v := v, e := e, t := none, w := 0 } } r h
        { v := v, e := e, t := none, w := 0 } t sched hr hflag hslot2 rfl rfl with
        ⟨s5, h5⟩ | ⟨_, _, _, _, s5, h5⟩
      · rw [h5] at hret
        cases hret
        exact ⟨rfl, rfl, hre⟩
      · rw [h5] at hret
        exact Result.noConfusion hret
  · intro v e t
    obtain ⟨s2, w2, hb, ha2, hq2, hs2, hc2⟩ := waitBegin_fresh s1 h.key r h t hr hf
    have hw2 : s2.aa.waits[getShard s2.aa h.key]? = some waits := by
      rw [ha2, ← hshard]; exact hw
    have hans := AnswerReq_at s2 h.key v e waits h.w w2 hw2 hget hs2 hc2
    have hslot3 := getElem?_set_same _ _ _
      ({ v := v, e := e, t := w2.t, w := 0 } : waitData) hs2
    obtain ⟨s4, h4⟩ := waitEnd_signalled
      { s2 with slots := s2.slots.set h.w { v := v, e := e, t := w2.t, w := 0 } } h
      { v := v, e := e, t := w2.t, w := 0 } hslot3 rfl
    refine ⟨h, s2, _, s4, hr, hb, hans, h4, ?_⟩
    have := Reusable_of_waitEnd
      { s2 with slots := s2.slots.set h.w { v := v, e := e, t := w2.t, w := 0 } } s4 r h
      { h with isWait := 1 } waits v e hq2 rfl (by rw [hshard2, ← ha2])
      (by rw [← ha2] at hw; exact hw) h4
    exact this
  · intro d hd sched
    have hret := WaitAnswer_timeout s1 h.key r h d sched hd hr hf
    refine ⟨_, hret, ?_⟩
    have := Reusable_of_WaitAnswer s1 _ r h waits d sched _ _ hr hflag hshard2 hw hret
    exact this
  · intro s r1 hd hs hq
    obtain ⟨hsh, _⟩ := hs.2.1 r1 hd hq
    obtain ⟨ws, hws⟩ := shard_exists s hs hd.key
    rw [← hsh] at hws
    refine ⟨?_, ?_, ?_⟩
    · intro s2 v e hc
      exact Reusable_of_waitEnd s s2 r1 hd hd ws v e hq rfl hsh hws hc
    · intro h0 t sched s2 v e hc
      exact Reusable_of_WaitAnswer s s2 r1 hd ws t sched v e hq h0 hsh hws hc
    · intro h0
      refine ⟨_, Delete_fresh s r1 hd hq h0, ?_⟩
      rw [hsh] at hws
      exact Reusable_of_removed _ s.aa hd.key r1 { hd with isWait := 1 } ws
        (by rw [hsh]) hws (getElem?_set_same _ _ _ _ hq) (hs.2.1 r1 hd hq).2

/-- C5 on the registry of four shards: `"k"` is applied, deleted through its handle, and is
reusable. -/
theorem C5_removed_key_reusable_witness :
    ApplyReq exEmpty exKey = .ret (exApplied, some 0, true) ∧
    ∃ s2, Delete exApplied 0 = .ret s2 ∧ Reusable s2 exKey 0 :=
  ⟨by decide, (C5_removed_key_reusable exEmpty exApplied exKey 0 (by decide)).1⟩

/-! ## The race between the answer and the timer -/

/-- C6 fails on the code.  With `WaitAnswer(200)` begun on the handle of `"k"`:
when the timer fires first and `AnswerReq("k", v, e)` runs before the cleanup, for every `v`
and `e` the answer overwrites the pair the timer stored and calls `Done` a second time, which
panics on the negative counter; when `AnswerReq("k", nil, nil)` runs first, the timer function
finds both fields nil, stores the deadline error and calls `Done` a second time, with the same
panic.  Only an answer with a value or an error that runs first makes the timer function do
nothing. -/
theorem C6_second_committer_signals_again :
    waitBegin exApplied 0 200 = .ret (some exWaiting) ∧
    run exWaiting [Op.timerFires 0] =
      .ret (exSlot { v := none, e := some .DeadlineExceeded, t := some .fired, w := 0 }) ∧
    (∀ (v : Value) (e : Err), run exWaiting [Op.timerFires 0, Op.answerReq exKey v e] =
      .panicked .negativeWaitGroupCounter (exSlot { v := v, e := e, t := some .fired, w := -1 })) ∧
    run exWaiting [Op.answerReq exKey none none] =
      .ret (exSlot { v := none, e := none, t := some .pending, w := 0 }) ∧
    run exWaiting [Op.answerReq exKey none none, Op.timerFires 0] =
      .panicked .negativeWaitGroupCounter
        (exSlot { v := none, e := some .DeadlineExceeded, t := some .fired, w := -1 }) ∧
    run exWaiting [Op.answerReq exKey (some "ok") none, Op.timerFires 0] =
      .ret (exSlot { v := some "ok", e := none, t := some .fired, w := 0 }) := by
  refine ⟨by decide, by decide, ?_, by decide, by decide, by decide⟩
  intro v e
  rfl

end AsyncAnswer
